import Mathlib

/-!
# Verification of the sum-of-squares benchmark harness

Shallow embedding of the `spp-experiments` crate (`src/lib.rs`,
`src/main.rs`, `benches/bench.rs`) together with proofs about the
embedded definitions.

Modelling conventions:
* `usize`/`u32` arithmetic is `Nat` with an explicit `% 2 ^ 64` /
  `% 2 ^ 32` at the operations where the source can wrap.
* A container is represented by the sequence of elements its iterator
  yields; all five container shapes of the catalog are embedded by the
  function that builds that sequence from the construction input.
* `f64` values are represented by rationals.  Every finite `f64` is a
  rational, and every concrete computation verified below (squares and
  sums of small integers, and the empty sum) is exact in IEEE-754
  double precision, so no rounding is lost by the model; structural
  facts (both kernels performing the identical operation sequence) are
  independent of the arithmetic model altogether.
* The bit-level total order of the wrapped float is modelled on raw
  64-bit patterns represented as `Nat`.
-/

/-! ## Comparable-value total order

Modelled from the spec: the `Ord`/`Eq`/`Hash` implementation of the
wrapped float is provided by the external `float_ord` crate, whose
source is not part of this repository; only the trait plumbing
(`Float`, `Inner for FloatOrd<f64>`) is in `src/lib.rs`.  The spec
defines the order as comparison of raw bit patterns after
canonicalizing NaN and signed zero, so that `+0.0` and `-0.0` compare
equal and all NaNs compare equal to each other and greater than every
non-NaN value.  Raw comparison of IEEE-754 bit patterns orders
negative values reversed and above positive ones, so realizing the
stated order requires the standard order-preserving key transform:
patterns with clear sign bit get the sign bit set, patterns with set
sign bit are bitwise complemented, and the resulting keys are compared
as unsigned 64-bit integers.  A 64-bit pattern is a `Nat` below
`2 ^ 64`.
-/

/-- The 11-bit exponent field of a 64-bit float pattern. -/
def expField (bits : Nat) : Nat := bits / 2 ^ 52 % 2 ^ 11

/-- The 52-bit mantissa field of a 64-bit float pattern. -/
def mantissaField (bits : Nat) : Nat := bits % 2 ^ 52

/-- A pattern encodes a NaN: exponent all ones, mantissa nonzero. -/
def isNaNBits (bits : Nat) : Prop := expField bits = 2047 ∧ mantissaField bits ≠ 0

instance (bits : Nat) : Decidable (isNaNBits bits) := by
  unfold isNaNBits
  infer_instance

/-- The bit pattern of `-0.0`: sign bit only. -/
def negZeroBits : Nat := 2 ^ 63

/-- The bit pattern of `+infinity`. -/
def posInfBits : Nat := 0x7FF0000000000000

/-- The canonical (positive quiet) NaN pattern every NaN is mapped to. -/
def canonicalNaNBits : Nat := 0x7FF8000000000000

/-- Modelled from the spec: canonicalize a pattern before comparison:
every NaN becomes the canonical NaN, `-0.0` becomes `+0.0`. -/
def canonicalizeBits (bits : Nat) : Nat :=
  if isNaNBits bits then canonicalNaNBits
  else if bits = negZeroBits then 0
  else bits

/-- Modelled from the spec: the order-preserving unsigned key of a
canonicalized pattern: set the sign bit of non-negative patterns
(`c + 2 ^ 63` for `c < 2 ^ 63`), bitwise-complement negative ones
(`2 ^ 64 - 1 - c`). -/
def floatOrdKey (bits : Nat) : Nat :=
  if canonicalizeBits bits < 2 ^ 63 then canonicalizeBits bits + 2 ^ 63
  else 2 ^ 64 - 1 - canonicalizeBits bits

/-- Rust `Ord::cmp` on unsigned integers. -/
def cmpU64 (x y : Nat) : Ordering :=
  if x < y then Ordering.lt else if x = y then Ordering.eq else Ordering.gt

/-- Modelled from the spec: the comparable-value total order compares
the canonicalized keys of the two raw patterns. -/
def floatOrdCompare (a b : Nat) : Ordering := cmpU64 (floatOrdKey a) (floatOrdKey b)

/-- Modelled from the spec: hashing is derived from the canonicalized
bit pattern, so patterns that compare equal hash identically. -/
def floatOrdHash (bits : Nat) : Nat := canonicalizeBits bits

/-! ## `human_readable_size` (`benches/bench.rs`)

Direct transcription of the `if`/`else if` chain, including the
duplicated `size_bytes < 1024 * 1024 * 1024` guard in front of the
`" GB"` branch.  `usize` only undergoes comparison and division here,
so plain `Nat` is exact. -/

def human_readable_size (size_bytes : Nat) : String :=
  if size_bytes < 1024 then Nat.repr size_bytes ++ " bytes"
  else if size_bytes < 1024 * 1024 then Nat.repr (size_bytes / 1024) ++ " kB"
  else if size_bytes < 1024 * 1024 * 1024 then Nat.repr (size_bytes / 1024 / 1024) ++ " MB"
  else if size_bytes < 1024 * 1024 * 1024 then Nat.repr (size_bytes / 1024 / 1024) ++ " GB"
  else Nat.repr size_bytes ++ " ??"

/-! ## The executable entry point (`src/main.rs`)

The whole demonstration in `src/main.rs` is commented out; the
compiled entry point is literally `fn main() {}`.  It performs no
output and returns unit, so the process exits with code 0. -/

/-- The lines `fn main() {}` writes to standard output: none. -/
def mainOutput : List String := []

/-- The exit code of the empty `main`: normal termination. -/
def mainExitCode : Nat := 0

/-! ## The wrapped value and the reduction kernels (`src/lib.rs`)

`FloatOrd<f64>` wraps one `f64`; `Inner for FloatOrd<f64>` exposes
`inner` (returns the wrapped raw value) and `create`.  The value side
of the model uses rationals, see the header. -/

/-- `FloatOrd<f64>`: the wrapper around one raw float. -/
structure FloatOrd where
  val : ℚ
deriving DecidableEq

/-- `Inner::inner for FloatOrd<f64>`: `self.0`. -/
def FloatOrd.inner (x : FloatOrd) : ℚ := x.val

/-- `Inner::create for FloatOrd<f64>`: `FloatOrd::<f64>(inner)`. -/
def FloatOrd.create (q : ℚ) : FloatOrd := ⟨q⟩

/-- `f64::powi`: raise to an integer power.  For exponent 2 this is the
single multiplication `x * x`. -/
def powi (x : ℚ) (n : Nat) : ℚ := x ^ n

/-- `sum_of_squares_by_move` (`src/lib.rs`): consume the collection,
map each owned element `x` to `x.inner().powi(2)` and sum the results
into an `f64` accumulator.  `Sum for f64` folds from the left starting
at `0.0`.  The argument list is the sequence the container's by-value
iterator yields, in the container's natural iteration order. -/
def sum_of_squares_by_move (collection : List FloatOrd) : ℚ :=
  (collection.map (fun x => powi x.inner 2)).foldl (· + ·) 0

/-- `sum_of_squares_by_ref` (`src/lib.rs`): borrow the collection,
iterate references to its elements (same order as the by-value
iterator), map each to `x.inner().powi(2)` — the `Copy` element is
dereferenced by the method call — and sum identically. -/
def sum_of_squares_by_ref (collection : List FloatOrd) : ℚ :=
  (collection.map (fun x => powi x.inner 2)).foldl (· + ·) 0

/-! ## The container catalog (`benches/bench.rs` uses all five)

Each container is embedded by the function taking the construction
sequence (what `FromIterator` receives) to the iteration sequence the
finished container yields. -/

/-- `Vec<FloatOrd<f64>>`: contiguous array, keeps duplicates, iterates
in insertion order. -/
def vecFromList (xs : List FloatOrd) : List FloatOrd := xs

/-- `VecDeque<FloatOrd<f64>>`: double-ended queue; built by pushing at
the back, so it also iterates in insertion order. -/
def vecDequeFromList (xs : List FloatOrd) : List FloatOrd := xs

/-- `LinkedList<FloatOrd<f64>>`: doubly-linked list, insertion
order. -/
def linkedListFromList (xs : List FloatOrd) : List FloatOrd := xs

/-- `HashSet<FloatOrd<f64>>`: coalesces duplicate values; the
iteration order is implementation-defined but deterministic for a
given build.  The model fixes first-occurrence order; claims whose
truth needs order-independence quantify over permutations of this
sequence. -/
def hashSetFromList (xs : List FloatOrd) : List FloatOrd := xs.dedup

/-- One `BTreeSet` insertion into the sorted element sequence: an
element equal to a present one is dropped, otherwise it is placed at
its sorted position. -/
def btreeInsert (x : FloatOrd) : List FloatOrd → List FloatOrd
  | [] => [x]
  | y :: ys =>
    if x.val < y.val then x :: y :: ys
    else if x.val = y.val then y :: ys
    else y :: btreeInsert x ys

/-- `BTreeSet<FloatOrd<f64>>`: coalesces duplicates and iterates in
ascending order of the total order (which agrees with numeric order on
the non-NaN, non-negative-zero values handled here). -/
def btreeSetFromList (xs : List FloatOrd) : List FloatOrd :=
  xs.foldl (fun acc x => btreeInsert x acc) []

/-! ## The size sweep (`benches/bench.rs`)

`compare_data_structures` (and identically
`measure_all_containers_by_sizes` and `measure_all_sizes`) runs

  let mut input_size_bytes = 2u32.pow(start_pow2) as usize;
  while input_size_bytes <= 2u32.pow(end_pow2) as usize {
      ... one measurement cell per container kind ...
      let data_len = input_size_bytes / size_of::<f64>();
      input_size_bytes *= 2u32.pow(step_pow2) as usize;
  }

with no validation of the three parameters.  `u32::pow` wraps modulo
`2 ^ 32` (release profile), widening `as usize` preserves the value,
and the `usize` multiplication wraps modulo `2 ^ 64`. -/

/-- `2u32.pow(k) as usize`: wrapping power of two. -/
def pow2u32 (k : Nat) : Nat := 2 ^ k % 2 ^ 32

/-- The byte budgets the sweep loop visits, in order.  The loop has no
bound of its own; `fuel` caps the number of modelled iterations and is
chosen large enough (64) that it is never the binding constraint for a
terminating configuration, while a configuration whose loop never
terminates yields the first 64 visited budgets. -/
def sweepLoop : Nat → Nat → Nat → Nat → List Nat
  | 0, _, _, _ => []
  | fuel + 1, budget, limit, mult =>
    if budget ≤ limit then budget :: sweepLoop fuel (budget * mult % 2 ^ 64) limit mult
    else []

/-- The sequence of byte budgets visited by the sweep for the given
`start_pow2`, `end_pow2`, `step_pow2`. -/
def sweepByteBudgets (start_pow2 end_pow2 step_pow2 : Nat) : List Nat :=
  sweepLoop 64 (pow2u32 start_pow2) (pow2u32 end_pow2) (pow2u32 step_pow2)

/-- The element count derived at each visited size:
`input_size_bytes / size_of::<f64>()` with `size_of::<f64>() = 8`. -/
def sweepElementCounts (start_pow2 end_pow2 step_pow2 : Nat) : List Nat :=
  (sweepByteBudgets start_pow2 end_pow2 step_pow2).map (fun b => b / 8)

/-! ## Proofs -/

/-! ### The comparable-value total order (C1) -/

lemma floatOrdKey_nan (a : Nat) (ha : isNaNBits a) : floatOrdKey a = 0xFFF8000000000000 := by
  unfold floatOrdKey canonicalizeBits
  rw [if_pos ha]
  norm_num [canonicalNaNBits]

lemma floatOrdKey_lt_of_not_nan (b : Nat) (hb : b < 2 ^ 64) (h : ¬ isNaNBits b) :
    floatOrdKey b < 0xFFF8000000000000 := by
  unfold floatOrdKey canonicalizeBits
  rw [if_neg h]
  by_cases hz : b = negZeroBits
  · rw [if_pos hz]
    norm_num
  · rw [if_neg hz]
    unfold isNaNBits expField mantissaField at h
    unfold negZeroBits at hz
    split_ifs with hlt
    · omega
    · omega

/-- C1: the comparable-value total order treats `+0.0` and `-0.0` as
equal (in comparison and in hash), treats every NaN pattern as equal
to every other NaN pattern (in comparison and in hash), and orders
every NaN pattern strictly greater than every non-NaN pattern,
`+infinity` included. -/
theorem c1_comparable_total_order :
    floatOrdCompare 0 negZeroBits = Ordering.eq ∧
    floatOrdHash 0 = floatOrdHash negZeroBits ∧
    (∀ a b : Nat, a < 2 ^ 64 → b < 2 ^ 64 → isNaNBits a → isNaNBits b →
      floatOrdCompare a b = Ordering.eq ∧ floatOrdHash a = floatOrdHash b) ∧
    (∀ a b : Nat, a < 2 ^ 64 → b < 2 ^ 64 → isNaNBits a → ¬ isNaNBits b →
      floatOrdCompare a b = Ordering.gt) := by
  refine ⟨by decide, by decide, ?_, ?_⟩
  · intro a b _ _ ha hb
    constructor
    · unfold floatOrdCompare
      rw [floatOrdKey_nan a ha, floatOrdKey_nan b hb]
      unfold cmpU64
      simp
    · unfold floatOrdHash canonicalizeBits
      rw [if_pos ha, if_pos hb]
  · intro a b _ hb ha hnb
    have hka := floatOrdKey_nan a ha
    have hkb := floatOrdKey_lt_of_not_nan b hb hnb
    unfold floatOrdCompare cmpU64
    rw [hka]
    rw [if_neg (by omega), if_neg (by omega)]

/-- Witness for C1: a concrete quiet-NaN pattern compares strictly
greater than `+infinity`. -/
theorem c1_comparable_total_order_witness :
    isNaNBits 0x7FF8000000000001 ∧ ¬ isNaNBits posInfBits ∧
    floatOrdCompare 0x7FF8000000000001 posInfBits = Ordering.gt :=
  ⟨by decide, by decide,
    c1_comparable_total_order.2.2.2 0x7FF8000000000001 posInfBits (by decide) (by decide)
      (by decide) (by decide)⟩

/-! ### The two kernels agree (C2) -/

/-- C2: for every container kind of the catalog and every container
instance (represented by its iteration sequence, which the by-value
and by-reference iterators share), `sum_of_squares_by_move` and
`sum_of_squares_by_ref` return the identical result: the two bodies
perform the same operation sequence. -/
theorem c2_move_ref_equal :
    ∀ xs : List FloatOrd,
      sum_of_squares_by_move (vecFromList xs) = sum_of_squares_by_ref (vecFromList xs) ∧
      sum_of_squares_by_move (vecDequeFromList xs) = sum_of_squares_by_ref (vecDequeFromList xs) ∧
      sum_of_squares_by_move (linkedListFromList xs) =
        sum_of_squares_by_ref (linkedListFromList xs) ∧
      sum_of_squares_by_move (hashSetFromList xs) = sum_of_squares_by_ref (hashSetFromList xs) ∧
      sum_of_squares_by_move (btreeSetFromList xs) = sum_of_squares_by_ref (btreeSetFromList xs) :=
  fun _ => ⟨rfl, rfl, rfl, rfl, rfl⟩

/-! ### Empty containers sum to zero (C3) -/

/-- C3: for all five container kinds and both ownership modes, the
kernel applied to an empty container returns exactly `0.0` (the fold's
initial accumulator; no floating-point operation is performed, so the
result is exact).  The embedded kernels are total functions, matching
the claim that the kernel cannot fail at any size. -/
theorem c3_empty_sum_zero :
    sum_of_squares_by_move (vecFromList []) = 0 ∧
    sum_of_squares_by_ref (vecFromList []) = 0 ∧
    sum_of_squares_by_move (vecDequeFromList []) = 0 ∧
    sum_of_squares_by_ref (vecDequeFromList []) = 0 ∧
    sum_of_squares_by_move (linkedListFromList []) = 0 ∧
    sum_of_squares_by_ref (linkedListFromList []) = 0 ∧
    sum_of_squares_by_move (hashSetFromList []) = 0 ∧
    sum_of_squares_by_ref (hashSetFromList []) = 0 ∧
    sum_of_squares_by_move (btreeSetFromList []) = 0 ∧
    sum_of_squares_by_ref (btreeSetFromList []) = 0 :=
  ⟨rfl, rfl, rfl, rfl, rfl, rfl, rfl, rfl, rfl, rfl⟩

/-! ### Structure of the by-move kernel (C6) -/

/-- C6: `sum_of_squares_by_move` maps each element to the square of
its inner value computed as the single multiplication `x * x`
(`powi` at exponent 2 is exactly one multiplication), and folds the
squares left-to-right by addition into an accumulator starting at
`0.0`, in the container's natural iteration order (the order of the
embedded sequence). -/
theorem c6_move_kernel_maps_squares :
    ∀ xs : List FloatOrd,
      sum_of_squares_by_move xs =
        (xs.map (fun x => x.inner * x.inner)).foldl (· + ·) 0 := by
  intro xs
  unfold sum_of_squares_by_move powi
  rw [show (fun x : FloatOrd => x.inner ^ 2) = fun x : FloatOrd => x.inner * x.inner from
    funext fun x => sq x.inner]

/-! ### Concrete scenario for the contiguous array (C7) -/

/-- C7: on the contiguous resizable array holding exactly `3.0` and
`4.0`, the by-move kernel returns exactly `25.0` (all intermediates
are small integers, exact in double precision). -/
theorem c7_vec_three_four :
    sum_of_squares_by_move (vecFromList [FloatOrd.create 3, FloatOrd.create 4]) = 25 := by
  simp [sum_of_squares_by_move, vecFromList, powi, FloatOrd.inner, FloatOrd.create]
  norm_num

/-! ### Duplicates coalesce in the hash-based set (C8) -/

lemma foldl_add_eq_sum (l : List ℚ) (init : ℚ) : l.foldl (· + ·) init = init + l.sum := by
  induction l generalizing init with
  | nil => simp
  | cons x xs ih =>
    rw [List.foldl_cons, ih, List.sum_cons]
    ring

lemma hashSet_of_1_1_2 :
    hashSetFromList [FloatOrd.create 1, FloatOrd.create 1, FloatOrd.create 2] =
      [FloatOrd.create 1, FloatOrd.create 2] := by
  simp [hashSetFromList, FloatOrd.create]

/-- C8: bulk-constructing the hash-based set from `[1.0, 1.0, 2.0]`
coalesces the duplicate, and the kernel returns exactly `5.0`, not
`6.0` — for every iteration order the set implementation may choose
(any permutation of the coalesced elements), since the two exact
summands make every summation order exact. -/
theorem c8_hashset_coalesced (xs : List FloatOrd)
    (h : List.Perm xs
      (hashSetFromList [FloatOrd.create 1, FloatOrd.create 1, FloatOrd.create 2])) :
    sum_of_squares_by_move xs = 5 ∧ sum_of_squares_by_move xs ≠ 6 := by
  rw [hashSet_of_1_1_2] at h
  have hsum : sum_of_squares_by_move xs = 5 := by
    unfold sum_of_squares_by_move
    rw [foldl_add_eq_sum, (List.Perm.map (fun x => powi x.inner 2) h).sum_eq]
    simp [powi, FloatOrd.inner, FloatOrd.create]
    norm_num
  exact ⟨hsum, by rw [hsum]; norm_num⟩

/-- Witness for C8: the model's own iteration order of the coalesced
set sums to `5.0`. -/
theorem c8_hashset_coalesced_witness :
    List.Perm [FloatOrd.create 1, FloatOrd.create 2]
        (hashSetFromList [FloatOrd.create 1, FloatOrd.create 1, FloatOrd.create 2]) ∧
      sum_of_squares_by_move [FloatOrd.create 1, FloatOrd.create 2] = 5 := by
  have hp : List.Perm [FloatOrd.create 1, FloatOrd.create 2]
      (hashSetFromList [FloatOrd.create 1, FloatOrd.create 1, FloatOrd.create 2]) := by
    rw [hashSet_of_1_1_2]
  exact ⟨hp, (c8_hashset_coalesced _ hp).1⟩

/-! ### The size sweep (C4, C5) -/

lemma sweepLoop_stop (fuel budget limit mult : Nat) (h : limit < budget) :
    sweepLoop fuel budget limit mult = [] := by
  cases fuel with
  | zero => rfl
  | succ f =>
    unfold sweepLoop
    rw [if_neg (by omega)]

lemma sweepLoop_pow (e st : Nat) :
    ∀ fuel a, a ≤ e → 1 ≤ st → e ≤ 31 → st ≤ 31 → (e - a) / st + 1 ≤ fuel →
      sweepLoop fuel (2 ^ a) (2 ^ e) (2 ^ st) =
        (List.range ((e - a) / st + 1)).map (fun i => 2 ^ (a + i * st)) := by
  intro fuel
  induction fuel with
  | zero => intro a _ _ _ _ h5; exact (Nat.not_succ_le_zero _ h5).elim
  | succ f ih =>
    intro a h1 h2 h3 h4 h5
    unfold sweepLoop
    rw [if_pos (Nat.pow_le_pow_right (by norm_num) h1)]
    have hmod : 2 ^ a * 2 ^ st % 2 ^ 64 = 2 ^ (a + st) := by
      rw [← pow_add]
      exact Nat.mod_eq_of_lt (Nat.pow_lt_pow_right (by norm_num) (by omega))
    rw [hmod]
    by_cases hcase : a + st ≤ e
    · have hst : st ≤ e - a := by omega
      have hdiv : (e - a) / st = (e - (a + st)) / st + 1 := by
        rw [Nat.div_eq_sub_div (by omega) hst]
        rw [show e - a - st = e - (a + st) from by omega]
      have hrec := ih (a + st) hcase h2 h3 h4 (by omega)
      rw [hrec, hdiv]
      conv => rhs; rw [List.range_succ_eq_map]
      rw [List.map_cons, List.map_map]
      congr 1
      · norm_num
      · apply List.map_congr_left
        intro i _
        simp only [Function.comp_apply, Nat.succ_eq_add_one]
        congr 1
        ring
    · rw [sweepLoop_stop _ _ _ _ (Nat.pow_lt_pow_right (by norm_num) (by omega))]
      rw [Nat.div_eq_of_lt (show e - a < st from by omega)]
      simp [List.range_succ]

/-- C4 (amended): for every sweep configuration with
`start_pow2 ≤ end_pow2 ≤ 31` and `1 ≤ step_pow2 ≤ 31` — the bounds
under which the source's 32-bit `2u32.pow` computations do not wrap —
the sweep visits exactly the byte budgets `2 ^ start_pow2`,
`2 ^ (start_pow2 + step_pow2)`, …, up to the largest such value
`≤ 2 ^ end_pow2`, in strictly increasing order without skipping or
reordering, deriving element count `byte_budget / 8` at each size; in
particular the configuration `(10, 12, 1)` visits `1024, 2048, 4096`
with element counts `128, 256, 512`. -/
theorem c4_sweep_visits (s e st : Nat)
    (h1 : s ≤ e) (h2 : 1 ≤ st) (h3 : e ≤ 31) (h4 : st ≤ 31) :
    sweepByteBudgets s e st =
        (List.range ((e - s) / st + 1)).map (fun i => 2 ^ (s + i * st)) ∧
    List.Pairwise (· < ·) (sweepByteBudgets s e st) ∧
    sweepElementCounts s e st =
        (List.range ((e - s) / st + 1)).map (fun i => 2 ^ (s + i * st) / 8) ∧
    sweepByteBudgets 10 12 1 = [1024, 2048, 4096] ∧
    sweepElementCounts 10 12 1 = [128, 256, 512] := by
  have hdl := Nat.div_le_self (e - s) st
  have key : sweepByteBudgets s e st =
      (List.range ((e - s) / st + 1)).map (fun i => 2 ^ (s + i * st)) := by
    unfold sweepByteBudgets pow2u32
    rw [Nat.mod_eq_of_lt (Nat.pow_lt_pow_right (by norm_num) (by omega)),
      Nat.mod_eq_of_lt (Nat.pow_lt_pow_right (by norm_num) (by omega)),
      Nat.mod_eq_of_lt (Nat.pow_lt_pow_right (by norm_num) (by omega))]
    exact sweepLoop_pow e st 64 s h1 h2 h3 h4 (by omega)
  refine ⟨key, ?_, ?_, by decide, by decide⟩
  · rw [key, List.pairwise_map]
    apply (List.pairwise_lt_range _).imp
    intro i j hij
    apply Nat.pow_lt_pow_right (by norm_num)
    have : i * st < j * st := (Nat.mul_lt_mul_right (by omega)).mpr hij
    omega
  · unfold sweepElementCounts
    rw [key, List.map_map]
    rfl

/-- Counterexample to C4 as stated: the claim quantifies over every
configuration with `start_pow2 ≤ end_pow2` and `step_pow2 ≥ 1`, but at
`start_pow2 = end_pow2 = 32` the source's `2u32.pow(32)` wraps to `0`,
so the sweep does not visit the byte budget `2 ^ 32` (it revisits
budget `0` without terminating). -/
theorem c4_overflow_counterexample : ¬ (sweepByteBudgets 32 32 1 = [2 ^ 32]) := by decide

/-- Witness for C4: the amended theorem applied at the configuration
`(10, 12, 1)`. -/
theorem c4_sweep_visits_witness :
    sweepByteBudgets 10 12 1 =
      (List.range ((12 - 10) / 1 + 1)).map (fun i => 2 ^ (10 + i * 1)) :=
  (c4_sweep_visits 10 12 1 (by norm_num) (by norm_num) (by norm_num) (by norm_num)).1

/-- C5: the sweep performs no validation at all.  With `step_pow2 = 0`
the multiplier is `2 ^ 0 = 1` and the loop revisits the start size
forever — the model's 64-iteration window is saturated with the
constant budget `1024` — and with `start_pow2 > end_pow2` it silently
produces an empty sweep; neither configuration is rejected with an
error (the embedded sweep has no error outcome at all). -/
theorem c5_no_eager_rejection :
    sweepByteBudgets 10 26 0 = List.replicate 64 1024 ∧
    sweepByteBudgets 11 10 1 = [] := by decide

/-! ### The entry point (C9) -/

/-- C9 (amended): the no-argument entry point `fn main() {}` runs no
demonstration and prints nothing to standard output, exiting with
code 0. -/
theorem c9_main_prints_nothing : mainOutput = [] ∧ mainExitCode = 0 := ⟨rfl, rfl⟩

/-- Counterexample to C9 as stated: the entry point does not print a
single floating-point result; it prints no line at all. -/
theorem c9_single_output_counterexample : ¬ (mainOutput.length = 1) := by decide

/-! ### `human_readable_size` never produces a GB label (C10) -/

lemma string_ne_of_last3 (x y a b : String) (ha : a.data.length = 3) (hb : b.data.length = 3)
    (hab : a.data ≠ b.data) : x ++ a ≠ y ++ b := by
  intro h
  have hd := congrArg String.data h
  rw [String.data_append, String.data_append] at hd
  have hlen : x.data.length = y.data.length := by
    have hl := congrArg List.length hd
    simp only [List.length_append, ha, hb] at hl
    omega
  exact hab (List.append_inj hd hlen).2

/-- C10: for every `size_bytes ≥ 1024 * 1024 * 1024`,
`human_readable_size` returns the decimal byte count followed by
`" ??"`; and no input whatsoever produces a string ending in `" GB"`,
because the guard of the `" GB"` branch repeats the condition of the
preceding `" MB"` branch and is therefore unreachable. -/
theorem c10_gb_unreachable :
    (∀ n : Nat, 1024 * 1024 * 1024 ≤ n → human_readable_size n = Nat.repr n ++ " ??") ∧
    (∀ (n : Nat) (s : String), human_readable_size n ≠ s ++ " GB") := by
  constructor
  · intro n h
    unfold human_readable_size
    rw [if_neg (by omega), if_neg (by omega), if_neg (by omega), if_neg (by omega)]
  · intro n s
    unfold human_readable_size
    split_ifs
    · rw [show (" bytes" : String) = " by" ++ "tes" from by decide, ← String.append_assoc]
      exact string_ne_of_last3 _ _ _ _ (by decide) (by decide) (by decide)
    · exact string_ne_of_last3 _ _ _ _ (by decide) (by decide) (by decide)
    · exact string_ne_of_last3 _ _ _ _ (by decide) (by decide) (by decide)
    · exact string_ne_of_last3 _ _ _ _ (by decide) (by decide) (by decide)

/-- Witness for C10: a gibibyte-sized input is labelled with `" ??"`. -/
theorem c10_gb_unreachable_witness :
    human_readable_size 1073741824 = Nat.repr 1073741824 ++ " ??" :=
  c10_gb_unreachable.1 1073741824 (by norm_num)
